import Mathlib

/-!
Shallow embedding of `sitnikov_module.py`, the single source module of the
Sitnikov-problem repository, together with theorems settling the frozen
claims about it.

Modelling choices:
* Floating-point scalars of the physics core (`time_moment`,
  `barycenter_distance_xy`, `derivative_z`, `derivative_v`, `ode_function`)
  are modelled as real numbers.
* The sampling schedule and the initial-condition grid are built by
  `numpy.arange` over caller-supplied bounds; this half-open
  arithmetic-sequence construction is modelled over the rationals so that
  every grid computation is executable.
* `scipy.integrate.odeint` is third-party library code outside the
  repository; the embedding abstracts it as an explicit function argument
  (`Integrator`), since the repository code only ever passes data through
  it.  Python exceptions surfacing in the repository's own code paths are
  modelled with `Except PyError`.
-/

namespace Sitnikov

/-- Source lines 5-12: `time_moment(e, E) = E - e*np.sin(E)`. -/
noncomputable def time_moment (e E : ℝ) : ℝ :=
  E - e * Real.sin E

/-- Source lines 14-22: `barycenter_distance_xy(a, e, E) = a*(1-e*np.cos(E))`. -/
noncomputable def barycenter_distance_xy (a e E : ℝ) : ℝ :=
  a * (1 - e * Real.cos E)

/-- Source lines 24-31: `derivative_z(r, v) = 2*r*v`. -/
noncomputable def derivative_z (r v : ℝ) : ℝ :=
  2 * r * v

/-- Source lines 33-40: `derivative_v(r, z) = -2*r*z / np.sqrt(z**2 + r**2)**3`. -/
noncomputable def derivative_v (r z : ℝ) : ℝ :=
  -(2 * r) * z / Real.sqrt (z ^ 2 + r ^ 2) ^ 3

/-- Source lines 43-49, `ode_function(y, E, a, e)`: unpack `y = (z, v)`,
evaluate `r = barycenter_distance_xy(a, e, E)` at the current `E`, then
return the state derivative `[dz_dE, dv_dE]`. -/
noncomputable def ode_function (y : ℝ × ℝ) (E a e : ℝ) : List ℝ :=
  let z := y.1
  let v := y.2
  let r := barycenter_distance_xy a e E
  let dz_dE := derivative_z r v
  let dv_dE := derivative_v r z
  [dz_dE, dv_dE]

/-- Python exceptions that can surface from the repository's own code
paths: `ZeroDivisionError` from `np.arange` with a zero step, and the
`IndexError`/`ValueError` that `solution`'s reshape of `np.array(y)` hits
when the collected list is empty or ragged.  The module defines no
exception classes of its own (in particular neither `InvalidParameterError`
nor `IntegrationError` exists anywhere in the source). -/
inductive PyError where
  | zeroDivisionError
  | indexError
  | valueError
deriving DecidableEq

/-- The value list of `np.arange(start, stop, step)` for `step ≠ 0`:
`max 0 ⌈(stop-start)/step⌉` elements, the `k`-th being `start + k*step`. -/
def arange_list (start stop step : ℚ) : List ℚ :=
  (List.range (Int.ceil ((stop - start) / step)).toNat).map fun k : ℕ => start + (k : ℚ) * step

/-- Model of `np.arange(start, stop, step)`: raises `ZeroDivisionError` when
`step = 0`, otherwise yields the half-open arithmetic sequence
`arange_list`. -/
def np_arange (start stop step : ℚ) : Except PyError (List ℚ) :=
  if step = 0 then .error .zeroDivisionError
  else .ok (arange_list start stop step)

/-- Source lines 65-78, `initial_grid_zv(z_start, z_stop, v_start, v_stop, step, v_dim)`:
`z0 = np.arange(z_start, z_stop, step)`; if
`v_dim or v_start == v_stop` then `v0 = np.full_like(z0, v_start)` (an
array of the same length as `z0`, every entry `v_start`), else
`v0 = np.arange(v_start, v_stop, step)`; the nested comprehension plus the
reshape to `(len(z0)*len(v0), 2)` flatten the pairs in row-major order. -/
def initial_grid_zv (z_start z_stop v_start v_stop step : ℚ) (v_dim : Bool) :
    Except PyError (List (ℚ × ℚ)) :=
  match np_arange z_start z_stop step with
  | .error err => .error err
  | .ok z0 =>
    match (if v_dim = true ∨ v_start = v_stop then
            Except.ok (z0.map fun _ => v_start)
          else np_arange v_start v_stop step) with
    | .error err => .error err
    | .ok v0 => .ok ((z0.map fun zi => v0.map fun vi => (zi, vi)).flatten)

/-- The external ODE solver `scipy.integrate.odeint` is library code
outside the repository; the embedding abstracts it as a function taking
the initial state, the list of sample points `E`, and the extra arguments
`(a, e)`, and returning the list of computed states. -/
def Integrator (σ : Type) : Type :=
  σ → List ℚ → ℚ → ℚ → List σ

/-- A stand-in solver that reports the initial state at every requested
sample point; it satisfies the documented `odeint` contract of one output
state per sample point. -/
def constant_solver (σ : Type) : Integrator σ :=
  fun y ts _ _ => ts.map fun _ => y

/-- A stand-in for a failing solver: it produces no states at all, as
`odeint` does when integration breaks down before the first requested
sample. -/
def empty_solver (σ : Type) : Integrator σ :=
  fun _ _ _ _ => []

/-- Source lines 52-63, `sitnikov(y0, a, e, period, N, step)`:
`E = np.arange(0, period*N, step)`, then
`res = odeint(ode_function, y0, E, args=(a, e))`, returning `(E, res)`.
The result of the solver call is returned unchecked. -/
def sitnikov {σ : Type} (odeint : Integrator σ) (y0 : σ)
    (a e period N step : ℚ) : Except PyError (List ℚ × List σ) :=
  match np_arange 0 (period * N) step with
  | .error err => .error err
  | .ok E => .ok (E, odeint y0 E a e)

/-- The `for idx in range(y0.shape[0])` loop of `solution` (source lines
82-85): integrate each grid row in order, collecting the per-row state
lists; a Python exception raised by any row aborts the loop. -/
def solution_loop {σ : Type} (odeint : Integrator σ) (a e period N step : ℚ) :
    List σ → Except PyError (List (List σ))
  | [] => .ok []
  | row :: rest =>
    match sitnikov odeint row a e period N step with
    | .error err => .error err
    | .ok (_, y_point) =>
      match solution_loop odeint a e period N step rest with
      | .error err => .error err
      | .ok ys => .ok (y_point :: ys)

/-- Source lines 81-89, `solution(y0, a, e, period, N, step)`: run the
loop, then `res = np.array(y)` and
`res = np.reshape(res, (res.shape[0]*res.shape[1], 2))`.  When the loop
collected nothing, `np.array([])` is one-dimensional and `res.shape[1]`
raises `IndexError`; when the rows are ragged, `np.array` of an
inhomogeneous nested list raises `ValueError`; otherwise the reshape
flattens the `(g, S, 2)` array into the concatenation of the rows. -/
def solution {σ : Type} (odeint : Integrator σ) (y0 : List σ)
    (a e period N step : ℚ) : Except PyError (List σ) :=
  match solution_loop odeint a e period N step y0 with
  | .error err => .error err
  | .ok [] => .error .indexError
  | .ok (y1 :: rest) =>
    if rest.all fun r => r.length = y1.length then .ok ((y1 :: rest).flatten)
    else .error .valueError

/-! ### Helper lemmas -/

/-- Shared helper: `a * (1 - e * cos E)` is positive when `a > 0` and
`e ∈ [0,1)`, since `e * cos E ≤ e < 1`. -/
lemma barycenter_pos (a e E : ℝ) (ha : 0 < a) (he0 : 0 ≤ e) (he1 : e < 1) :
    0 < barycenter_distance_xy a e E := by
  have hcos : e * Real.cos E ≤ e :=
    mul_le_of_le_one_right he0 (Real.cos_le_one E)
  have h1 : e * Real.cos E < 1 := lt_of_le_of_lt hcos he1
  have h2 : 0 < 1 - e * Real.cos E := by linarith
  exact mul_pos ha h2

/-- Index bound of `arange_list` for a positive step: position `k` exists
iff the `k`-th value still lies strictly below `stop`. -/
lemma arange_list_lt_iff (start stop step : ℚ) (h : 0 < step) (k : ℕ) :
    k < (arange_list start stop step).length ↔ start + k * step < stop := by
  unfold arange_list
  rw [List.length_map, List.length_range, Int.lt_toNat, Int.lt_ceil, lt_div_iff₀ h]
  push_cast
  constructor <;> intro <;> linarith

/-- Value of `arange_list` at index `k`. -/
lemma arange_list_get (start stop step : ℚ) (k : ℕ)
    (hk : k < (arange_list start stop step).length) :
    (arange_list start stop step).get ⟨k, hk⟩ = start + k * step := by
  simp [arange_list]

/-- Length of a flattened map whose blocks all have length `m`. -/
lemma flatten_map_length {α β : Type} (l : List α) (f : α → List β) (m : ℕ)
    (hf : ∀ x ∈ l, (f x).length = m) :
    (l.map f).flatten.length = l.length * m := by
  induction l with
  | nil => simp
  | cons a l ih =>
    have ha := hf a (List.mem_cons_self a l)
    have ih2 := ih fun x hx => hf x (List.mem_cons_of_mem a hx)
    simp only [List.map_cons, List.flatten_cons, List.length_append, List.length_cons, ih2, ha]
    ring

/-- Block `i` of a flattened map whose blocks all have length `m`. -/
lemma flatten_map_block {α β : Type} (l : List α) (f : α → List β) (m : ℕ)
    (hf : ∀ x ∈ l, (f x).length = m) :
    ∀ (i : ℕ) (hi : i < l.length),
      ((l.map f).flatten.drop (i * m)).take m = f (l.get ⟨i, hi⟩) := by
  induction l with
  | nil => intro i hi; cases hi
  | cons a l ih =>
    intro i hi
    have ha := hf a (List.mem_cons_self a l)
    cases i with
    | zero =>
      simp only [List.map_cons, List.flatten_cons, Nat.zero_mul, List.drop_zero, List.get]
      exact List.take_left' ha
    | succ i =>
      have hi2 : i < l.length := Nat.lt_of_succ_lt_succ hi
      have hdrop : ((a :: l).map f).flatten.drop ((i + 1) * m) =
          (l.map f).flatten.drop (i * m) := by
        simp only [List.map_cons, List.flatten_cons]
        rw [show (i + 1) * m = (f a).length + i * m by rw [ha]; ring]
        exact List.drop_append (i * m)
      rw [hdrop]
      exact ih (fun x hx => hf x (List.mem_cons_of_mem a hx)) i hi2

/-- Element `i*m + j` of a flattened map whose blocks all have length `m`. -/
lemma flatten_map_getElem {α β : Type} (l : List α) (f : α → List β) (m : ℕ)
    (hf : ∀ x ∈ l, (f x).length = m) (i j : ℕ) (hi : i < l.length) (hj : j < m) :
    (l.map f).flatten[i * m + j]? = (f (l.get ⟨i, hi⟩))[j]? := by
  have hblock := flatten_map_block l f m hf i hi
  calc (l.map f).flatten[i * m + j]?
      = ((l.map f).flatten.drop (i * m))[j]? := (List.getElem?_drop _ _ _).symm
    _ = (((l.map f).flatten.drop (i * m)).take m)[j]? :=
        (List.getElem?_take_of_lt hj).symm
    _ = (f (l.get ⟨i, hi⟩))[j]? := by rw [hblock]

/-- The collecting loop of `solution` succeeds whenever the step is
nonzero, producing exactly the per-row solver outputs in grid order. -/
lemma solution_loop_ok {σ : Type} (odeint : Integrator σ) (a e period N step : ℚ)
    (h : step ≠ 0) (rows : List σ) :
    solution_loop odeint a e period N step rows =
      .ok (rows.map fun row => odeint row (arange_list 0 (period * N) step) a e) := by
  induction rows with
  | nil => rfl
  | cons row rest ih =>
    simp only [solution_loop, sitnikov, np_arange, h, if_false, ih, List.map_cons]

/-! ### Claim theorems -/

/-- C5: for `a > 0` and `e ∈ [0,1)`, `barycenter_distance_xy a e E`
equals `a * (1 - e * cos E)` and is strictly positive. -/
theorem barycenter_distance_formula_pos (a e E : ℝ)
    (ha : 0 < a) (he0 : 0 ≤ e) (he1 : e < 1) :
    barycenter_distance_xy a e E = a * (1 - e * Real.cos E) ∧
      0 < barycenter_distance_xy a e E :=
  ⟨rfl, barycenter_pos a e E ha he0 he1⟩

/-- C5 witness at `a = 1`, `e = 0`, `E = 0`. -/
theorem barycenter_distance_formula_pos_witness :
    (0:ℝ) < 1 ∧ (0:ℝ) ≤ 0 ∧ (0:ℝ) < 1 ∧
      (barycenter_distance_xy 1 0 0 = 1 * (1 - 0 * Real.cos 0) ∧
        0 < barycenter_distance_xy 1 0 0) :=
  ⟨by norm_num, le_rfl, by norm_num,
    barycenter_distance_formula_pos 1 0 0 (by norm_num) le_rfl (by norm_num)⟩

/-- C3: the state derivative assembled by `ode_function` is
`[2*r*v, -2*r*z / (z^2 + r^2)^(3/2)]` with `r = barycenter_distance_xy a e E`
evaluated at the current `E`.  The source computes the denominator as
`np.sqrt(z**2 + r**2)**3`, which coincides with the real power `(3/2)`
because `z^2 + r^2` is nonnegative. -/
theorem ode_function_eq (z v E a e : ℝ) :
    ode_function (z, v) E a e =
      [2 * barycenter_distance_xy a e E * v,
        -(2 * barycenter_distance_xy a e E) * z /
          (z ^ 2 + barycenter_distance_xy a e E ^ 2) ^ ((3:ℝ)/2)] := by
  have hx : (0:ℝ) ≤ z ^ 2 + barycenter_distance_xy a e E ^ 2 := by positivity
  simp only [ode_function, derivative_z, derivative_v]
  rw [Real.sqrt_eq_rpow, ← Real.rpow_natCast
      ((z ^ 2 + barycenter_distance_xy a e E ^ 2) ^ ((1:ℝ)/2)) 3,
    ← Real.rpow_mul hx]
  norm_num

/-- C4: the denominator `sqrt(z^2 + r^2)^3` of `derivative_v` vanishes only
when `z = 0` and `r = 0` simultaneously, and with
`r = barycenter_distance_xy a e E`, `a > 0`, `e ∈ [0,1)` this is
unreachable, so the division in `derivative_v` never divides by zero. -/
theorem derivative_v_denominator_ne_zero (a e E z : ℝ)
    (ha : 0 < a) (he0 : 0 ≤ e) (he1 : e < 1) :
    (∀ w r : ℝ, Real.sqrt (w ^ 2 + r ^ 2) ^ 3 = 0 → w = 0 ∧ r = 0) ∧
      Real.sqrt (z ^ 2 + barycenter_distance_xy a e E ^ 2) ^ 3 ≠ 0 := by
  constructor
  · intro w r h
    have hwr : (0:ℝ) ≤ w ^ 2 + r ^ 2 := by positivity
    have hsq : Real.sqrt (w ^ 2 + r ^ 2) = 0 :=
      (pow_eq_zero_iff (by norm_num : (3:ℕ) ≠ 0)).mp h
    have hz : w ^ 2 + r ^ 2 = 0 := (Real.sqrt_eq_zero hwr).mp hsq
    have hw2 : w ^ 2 = 0 ∧ r ^ 2 = 0 :=
      (add_eq_zero_iff_of_nonneg (sq_nonneg w) (sq_nonneg r)).mp hz
    exact ⟨sq_eq_zero_iff.mp hw2.1, sq_eq_zero_iff.mp hw2.2⟩
  · have hr : 0 < barycenter_distance_xy a e E := barycenter_pos a e E ha he0 he1
    have hs : 0 < z ^ 2 + barycenter_distance_xy a e E ^ 2 :=
      add_pos_of_nonneg_of_pos (sq_nonneg z) (pow_pos hr 2)
    exact pow_ne_zero 3 (ne_of_gt (Real.sqrt_pos.mpr hs))

/-- C4 witness at `a = 1`, `e = 0`, `E = 0`, `z = 0`. -/
theorem derivative_v_denominator_ne_zero_witness :
    (0:ℝ) < 1 ∧ (0:ℝ) ≤ 0 ∧ (0:ℝ) < 1 ∧
      ((∀ w r : ℝ, Real.sqrt (w ^ 2 + r ^ 2) ^ 3 = 0 → w = 0 ∧ r = 0) ∧
        Real.sqrt ((0:ℝ) ^ 2 + barycenter_distance_xy 1 0 0 ^ 2) ^ 3 ≠ 0) :=
  ⟨by norm_num, le_rfl, by norm_num,
    derivative_v_denominator_ne_zero 1 0 0 0 (by norm_num) le_rfl (by norm_num)⟩

/-- C1 (failing input): with `z_start = 0`, `z_stop = 3`, `step = 1` and a
fixed velocity `1/2` (`v_dim = true`), `initial_grid_zv` does NOT return
the 3-row grid `[[0,1/2],[1,1/2],[2,1/2]]` the claim demands.  Because
`v0 = np.full_like(z0, v_start)` has the same length as `z0` and is then
fed into the Cartesian comprehension, the code returns 9 rows, each
`[z_i, 1/2]` repeated three times. -/
theorem fixed_velocity_grid_eval :
    initial_grid_zv 0 3 (1/2) (1/2) 1 true =
      .ok [(0, 1/2), (0, 1/2), (0, 1/2), (1, 1/2), (1, 1/2), (1, 1/2),
        (2, 1/2), (2, 1/2), (2, 1/2)] ∧
      ∀ g : List (ℚ × ℚ),
        initial_grid_zv 0 3 (1/2) (1/2) 1 true = .ok g → g.length = 9 := by
  have h : (Int.ceil (((3:ℚ) - 0) / 1)).toNat = 3 := by
    first
    | (norm_num; rfl)
    | norm_num
  constructor
  · simp only [initial_grid_zv, np_arange, arange_list, h]
    norm_num [List.range_succ]
  · intro g hg
    rw [initial_grid_zv] at hg
    simp only [np_arange, arange_list, h] at hg
    norm_num [List.range_succ] at hg
    rw [← hg]
    rfl

/-- C6: for positive `period`, `N`, `step`, and a solver meeting the
documented `odeint` contract of one output state per requested sample
point, `sitnikov` returns the pair `(E, states)` where `E` is exactly the
arithmetic sequence `E_k = k*step` for `k = 0, 1, ...` while
`E_k < period*N`, and `states` has the same length as `E`. -/
theorem sitnikov_sampling {σ : Type} (odeint : Integrator σ) (y0 : σ)
    (a e period N step : ℚ)
    (hperiod : 0 < period) (hN : 0 < N) (hstep : 0 < step)
    (hlen : ∀ (y : σ) (ts : List ℚ) (p q : ℚ), (odeint y ts p q).length = ts.length) :
    ∃ E sts, sitnikov odeint y0 a e period N step = .ok (E, sts) ∧
      E ≠ [] ∧
      (∀ k : ℕ, k < E.length ↔ (k : ℚ) * step < period * N) ∧
      (∀ (k : ℕ) (hk : k < E.length), E.get ⟨k, hk⟩ = (k : ℚ) * step) ∧
      sts.length = E.length := by
  have hne : step ≠ 0 := ne_of_gt hstep
  refine ⟨arange_list 0 (period * N) step,
    odeint y0 (arange_list 0 (period * N) step) a e, ?_, ?_, ?_, ?_, ?_⟩
  · simp [sitnikov, np_arange, hne]
  · rw [← List.length_pos_iff_ne_nil]
    rw [show (0:ℕ) < (arange_list 0 (period * N) step).length ↔
        (0:ℕ) < (arange_list 0 (period * N) step).length from Iff.rfl]
    have h0 := (arange_list_lt_iff 0 (period * N) step hstep 0).mpr
      (by simpa using mul_pos hperiod hN)
    exact h0
  · intro k
    rw [arange_list_lt_iff 0 (period * N) step hstep k]
    constructor <;> intro h <;> linarith
  · intro k hk
    rw [arange_list_get 0 (period * N) step k hk]
    ring
  · exact hlen y0 _ a e

/-- C6 witness: a concrete run with `period = N = step = 1` and the
constant stand-in solver. -/
theorem sitnikov_sampling_witness :
    (0:ℚ) < 1 ∧
      (∀ (y : Unit) (ts : List ℚ) (p q : ℚ),
        (constant_solver Unit y ts p q).length = ts.length) ∧
      ∃ E sts, sitnikov (constant_solver Unit) () 1 0 1 1 1 = .ok (E, sts) ∧
        E ≠ [] ∧
        (∀ k : ℕ, k < E.length ↔ (k : ℚ) * 1 < 1 * 1) ∧
        (∀ (k : ℕ) (hk : k < E.length), E.get ⟨k, hk⟩ = (k : ℚ) * 1) ∧
        sts.length = E.length :=
  ⟨by norm_num, fun y ts p q => List.length_map ts _,
    sitnikov_sampling (constant_solver Unit) () 1 0 1 1 1 (by norm_num)
      (by norm_num) (by norm_num) (fun y ts p q => List.length_map ts _)⟩

/-- C7: with the fixed-velocity flag unset and `v_start ≠ v_stop`,
`initial_grid_zv` is the full Cartesian product of the half-open
arithmetic sequences `[z_start, z_stop)` and `[v_start, v_stop)` (same
step), in row-major order: row `i*nv + j` is `(z_start + i*step,
v_start + j*step)`, both index ranges being exactly the values below the
respective stop. -/
theorem initial_grid_cartesian (z_start z_stop v_start v_stop step : ℚ)
    (hstep : 0 < step) (hne : v_start ≠ v_stop) :
    ∃ g, initial_grid_zv z_start z_stop v_start v_stop step false = .ok g ∧
      g.length = (arange_list z_start z_stop step).length *
        (arange_list v_start v_stop step).length ∧
      (∀ i : ℕ, i < (arange_list z_start z_stop step).length ↔
        z_start + (i : ℚ) * step < z_stop) ∧
      (∀ j : ℕ, j < (arange_list v_start v_stop step).length ↔
        v_start + (j : ℚ) * step < v_stop) ∧
      ∀ (i j : ℕ), i < (arange_list z_start z_stop step).length →
        j < (arange_list v_start v_stop step).length →
        g[i * (arange_list v_start v_stop step).length + j]? =
          some (z_start + (i : ℚ) * step, v_start + (j : ℚ) * step) := by
  have hz := arange_list_lt_iff z_start z_stop step hstep
  have hv := arange_list_lt_iff v_start v_stop step hstep
  refine ⟨((arange_list z_start z_stop step).map fun zi =>
    (arange_list v_start v_stop step).map fun vi => (zi, vi)).flatten, ?_, ?_, hz, hv, ?_⟩
  · simp [initial_grid_zv, np_arange, ne_of_gt hstep, hne]
  · exact flatten_map_length _ _ _ fun x _ => List.length_map _ _
  · intro i j hi hj
    rw [flatten_map_getElem _ _ _ (fun x _ => List.length_map _ _) i j hi hj]
    rw [List.getElem?_eq_getElem (by simpa using hj)]
    simp only [List.getElem_map]
    have hzi := arange_list_get z_start z_stop step i hi
    have hvj := arange_list_get v_start v_stop step j hj
    simp only [List.get_eq_getElem] at hvj
    simp only [hzi, hvj]

/-- C7 witness: `z ∈ [0,2)`, `v ∈ [0,2)` with step 1 gives the 2×2 grid
`[[0,0],[0,1],[1,0],[1,1]]`. -/
theorem initial_grid_cartesian_witness :
    ((0:ℚ) < 1 ∧ (0:ℚ) ≠ 2) ∧
      (∃ g, initial_grid_zv 0 2 0 2 1 false = .ok g ∧
        g.length = (arange_list 0 2 1).length * (arange_list 0 2 1).length ∧
        (∀ i : ℕ, i < (arange_list 0 2 1).length ↔ 0 + (i : ℚ) * 1 < 2) ∧
        (∀ j : ℕ, j < (arange_list 0 2 1).length ↔ 0 + (j : ℚ) * 1 < 2) ∧
        ∀ (i j : ℕ), i < (arange_list 0 2 1).length →
          j < (arange_list 0 2 1).length →
          g[i * (arange_list 0 2 1).length + j]? =
            some (0 + (i : ℚ) * 1, 0 + (j : ℚ) * 1)) ∧
      initial_grid_zv 0 2 0 2 1 false = .ok [(0, 0), (0, 1), (1, 0), (1, 1)] :=
  ⟨⟨by norm_num, by norm_num⟩,
    initial_grid_cartesian 0 2 0 2 1 (by norm_num) (by norm_num),
    by
      have h : (Int.ceil (((2:ℚ) - 0) / 1)).toNat = 2 := by
        first
        | (norm_num; rfl)
        | norm_num
      simp only [initial_grid_zv, np_arange, arange_list, h]
      norm_num [List.range_succ]⟩

/-- C2: for a nonempty grid, a nonzero positive step and a solver whose
single-row output has `S` samples on the shared schedule, `solution`
integrates the rows in grid order and returns the flat concatenation:
`grid.length * S` states in total, whose `k`-th block of `S` states is
exactly the state list from integrating row `k` alone via `sitnikov`.
(The empty grid is excluded here: on it `solution` raises instead, which
is the subject of the separate empty-grid claim.) -/
theorem solution_decomposes {σ : Type} (odeint : Integrator σ) (grid : List σ)
    (a e period N step : ℚ) (S : ℕ)
    (hgrid : grid ≠ []) (hstep : 0 < step)
    (hS : ∀ row ∈ grid, (odeint row (arange_list 0 (period * N) step) a e).length = S) :
    ∃ out, solution odeint grid a e period N step = .ok out ∧
      out.length = grid.length * S ∧
      ∀ (k : ℕ) (hk : k < grid.length),
        ∃ Ek sk, sitnikov odeint (grid.get ⟨k, hk⟩) a e period N step = .ok (Ek, sk) ∧
          sk.length = S ∧ (out.drop (k * S)).take S = sk := by
  have hne : step ≠ 0 := ne_of_gt hstep
  have hloop := solution_loop_ok odeint a e period N step hne grid
  obtain ⟨r, rest, hgr⟩ : ∃ r rest, grid = r :: rest := by
    cases grid with
    | nil => exact absurd rfl hgrid
    | cons r rest => exact ⟨r, rest, rfl⟩
  subst hgr
  have hcond : ((rest.map fun row => odeint row (arange_list 0 (period * N) step) a e).all
      fun x => x.length = (odeint r (arange_list 0 (period * N) step) a e).length) = true := by
    rw [List.all_eq_true]
    intro x hx
    obtain ⟨row, hrow, hfx⟩ := List.mem_map.mp hx
    have h1 := hS row (List.mem_cons_of_mem r hrow)
    have h2 := hS r (List.mem_cons_self r rest)
    simp [← hfx, h1, h2]
  refine ⟨((r :: rest).map fun row =>
      odeint row (arange_list 0 (period * N) step) a e).flatten, ?_, ?_, ?_⟩
  · simp only [solution, hloop, List.map_cons, hcond, if_true, List.map_cons]
  · exact flatten_map_length _ _ S hS
  · intro k hk
    refine ⟨arange_list 0 (period * N) step,
      odeint ((r :: rest).get ⟨k, hk⟩) (arange_list 0 (period * N) step) a e, ?_, ?_, ?_⟩
    · simp [sitnikov, np_arange, hne]
    · exact hS _ (List.get_mem _ _ _)
    · exact flatten_map_block _ _ S hS k hk

/-- C2 witness: a 2-row grid with the constant stand-in solver,
`period = N = step = 1`, one sample per trajectory. -/
theorem solution_decomposes_witness :
    (([(), ()] : List Unit) ≠ [] ∧ (0:ℚ) < 1 ∧
      (∀ row ∈ ([(), ()] : List Unit),
        (constant_solver Unit row (arange_list 0 (1 * 1) 1) 1 0).length = 1)) ∧
      ∃ out, solution (constant_solver Unit) [(), ()] 1 0 1 1 1 = .ok out ∧
        out.length = ([(), ()] : List Unit).length * 1 ∧
        ∀ (k : ℕ) (hk : k < ([(), ()] : List Unit).length),
          ∃ Ek sk, sitnikov (constant_solver Unit) (([(), ()] : List Unit).get ⟨k, hk⟩)
              1 0 1 1 1 = .ok (Ek, sk) ∧
            sk.length = 1 ∧ (out.drop (k * 1)).take 1 = sk := by
  have hc : (Int.ceil (((1:ℚ) * 1 - 0) / 1)).toNat = 1 := by
    first
    | (norm_num; rfl)
    | norm_num
  have hS1 : ∀ row ∈ ([(), ()] : List Unit),
      (constant_solver Unit row (arange_list 0 (1 * 1) 1) 1 0).length = 1 := by
    intro row h
    simp [constant_solver, arange_list, hc]
  exact ⟨⟨by simp, by norm_num, hS1⟩,
    solution_decomposes (constant_solver Unit) [(), ()] 1 0 1 1 1 1
      (by simp) (by norm_num) hS1⟩

/-- C8 (counterexample): no parameter validation happens anywhere.  With a
non-positive semi-major axis `a = -1` and an eccentricity `e = 2` outside
`[0,1)`, `sitnikov` happily returns a result instead of raising, and with
a negative step `initial_grid_zv` silently returns an empty grid. -/
theorem no_invalid_parameter_error :
    sitnikov (constant_solver (ℚ × ℚ)) (0, 0) (-1) 2 1 1 1 = .ok ([0], [(0, 0)]) ∧
      initial_grid_zv 0 3 (1/2) (1/2) (-1) false = .ok [] := by
  have hc : (Int.ceil (((1:ℚ) * 1 - 0) / 1)).toNat = 1 := by
    first
    | (norm_num; rfl)
    | norm_num
  constructor
  · simp only [sitnikov, np_arange, arange_list, hc]
    norm_num [List.range_succ, constant_solver]
  · have hc2 : (Int.ceil (((3:ℚ) - 0) / (-1))).toNat = 0 := by
      rw [show ((3:ℚ) - 0) / (-1) = -3 by norm_num, show ((-3:ℚ)) = -(3:ℚ) by norm_num,
        Int.ceil_neg]
      first
      | (norm_num; rfl)
      | norm_num
      | (norm_num; decide)
      | decide
    simp only [initial_grid_zv, np_arange, arange_list, hc2]
    norm_num

/-- C8 (as amended): neither `sitnikov` nor `initial_grid_zv` validates
`a`, `e`, the step sign, or the range bounds; for ANY parameter values
with a nonzero step both return normally (no `InvalidParameterError`
exists in the module; the only entry-time failure is numpy's
`ZeroDivisionError` for a zero step, inherited from `np.arange`). -/
theorem no_parameter_validation {σ : Type} (odeint : Integrator σ) (y0 : σ)
    (a e period N step : ℚ) (hstep : step ≠ 0)
    (z_start z_stop v_start v_stop : ℚ) (v_dim : Bool) :
    (∃ r, sitnikov odeint y0 a e period N step = .ok r) ∧
      ∃ g, initial_grid_zv z_start z_stop v_start v_stop step v_dim = .ok g := by
  constructor
  · refine ⟨(arange_list 0 (period * N) step,
      odeint y0 (arange_list 0 (period * N) step) a e), ?_⟩
    simp [sitnikov, np_arange, hstep]
  · by_cases hb : v_dim = true ∨ v_start = v_stop
    · refine ⟨((arange_list z_start z_stop step).map fun zi =>
        ((arange_list z_start z_stop step).map fun _ => v_start).map
          fun vi => (zi, vi)).flatten, ?_⟩
      simp only [initial_grid_zv, np_arange, if_neg hstep, if_pos hb]
    · refine ⟨((arange_list z_start z_stop step).map fun zi =>
        (arange_list v_start v_stop step).map fun vi => (zi, vi)).flatten, ?_⟩
      simp only [initial_grid_zv, np_arange, if_neg hstep, if_neg hb]

/-- C8 witness: invalid `a = -1`, `e = 2` still succeed with step 1. -/
theorem no_parameter_validation_witness :
    ((1:ℚ) ≠ 0) ∧
      (∃ r, sitnikov (constant_solver ℚ) 0 (-1) 2 1 1 1 = .ok r) ∧
      ∃ g, initial_grid_zv 0 3 (1/2) (1/2) 1 false = .ok g :=
  ⟨by norm_num,
    no_parameter_validation (constant_solver ℚ) 0 (-1) 2 1 1 1 (by norm_num)
      0 3 (1/2) (1/2) false⟩

/-- C9 (counterexample): with a solver that fails to produce any requested
sample (returns no states), `sitnikov` raises nothing: it returns `.ok`
with the states silently truncated to the empty list against a nonempty
sample sequence, and `solution` likewise completes with `.ok` instead of
surfacing a row-annotated error. -/
theorem integration_failure_silently_truncated :
    sitnikov (empty_solver (ℚ × ℚ)) (0, 0) 1 0 1 1 1 = .ok ([0], []) ∧
      solution (empty_solver (ℚ × ℚ)) [(0, 0)] 1 0 1 1 1 = .ok [] := by
  have hc : (Int.ceil (((1:ℚ) * 1 - 0) / 1)).toNat = 1 := by
    first
    | (norm_num; rfl)
    | norm_num
  constructor
  · simp only [sitnikov, np_arange, arange_list, hc]
    norm_num [List.range_succ, empty_solver]
  · simp only [solution, solution_loop, sitnikov, np_arange, arange_list, hc, empty_solver]
    norm_num [List.range_succ]

/-- C9 (as amended): the module has no failure detection at all.
`sitnikov` returns exactly whatever state list the solver produces —
truncated output included — paired with the sample sequence, and no
`IntegrationError` (or any annotation of a row index) exists anywhere on
the path. -/
theorem sitnikov_passes_solver_output {σ : Type} (odeint : Integrator σ) (y0 : σ)
    (a e period N step : ℚ) (hstep : step ≠ 0) :
    sitnikov odeint y0 a e period N step =
      .ok (arange_list 0 (period * N) step,
        odeint y0 (arange_list 0 (period * N) step) a e) := by
  simp [sitnikov, np_arange, hstep]

/-- C9 witness: the failing stand-in solver's empty output is passed
through unchanged. -/
theorem sitnikov_passes_solver_output_witness :
    ((1:ℚ) ≠ 0) ∧
      sitnikov (empty_solver ℚ) 0 1 0 1 1 1 =
        .ok (arange_list 0 (1 * 1) 1, empty_solver ℚ 0 (arange_list 0 (1 * 1) 1) 1 0) :=
  ⟨by norm_num, sitnikov_passes_solver_output (empty_solver ℚ) 0 1 0 1 1 1 (by norm_num)⟩

/-- C10: on the empty initial-condition grid, `solution` raises (the
`IndexError` from `res.shape[1]` on the zero-element `np.array([])`)
instead of returning an empty aggregated sequence — even though the grid
builder legitimately produces such a zero-row grid, e.g. for the empty
`z`-range `[0, 0)`. -/
theorem solution_empty_grid_raises :
    (∀ (σ : Type) (odeint : Integrator σ) (a e period N step : ℚ),
      solution odeint [] a e period N step = .error .indexError) ∧
      initial_grid_zv 0 0 0 1 1 false = .ok [] := by
  constructor
  · intro σ odeint a e period N step
    rfl
  · have hc : (Int.ceil (((0:ℚ) - 0) / 1)).toNat = 0 := by norm_num
    simp only [initial_grid_zv, np_arange, arange_list, hc]
    norm_num

end Sitnikov
